import Mathlib

/- Verification of the discord-messages-scraper core: a shallow embedding of
the pagination loop (DiscordScraper.scrapeChannel / filterByTimestamp), the
rate limiter (RateLimiter.waitForRateLimit / executeWithRetry) and the CSV
append store (CSVProcessor), together with proofs of the specified
properties. Machine strings are modelled as `List Char`, wall-clock
timestamps as `Int` (milliseconds), message ids as `Nat`, and the remote
feed as a function from the pagination cursor to the page it returns. -/

/-- A Discord message, reduced to the two fields the core interprets:
its snowflake id and its creation timestamp. -/
structure Msg where
  id : Nat
  timestamp : Int
deriving DecidableEq

/-- `PaginationState` from src/types: { before?, hasMore, totalFetched,
lastMessageId? } (the unused `after` field is omitted). -/
structure PaginationState where
  before : Option Nat
  hasMore : Bool
  totalFetched : Nat
  lastMessageId : Option Nat
deriving DecidableEq

/-- The per-message predicate of `DiscordScraper.filterByTimestamp`:
reject when `msgDate < startDate` or `msgDate > endDate`. -/
def keepMsg (sd ed : Option Int) (m : Msg) : Bool :=
  (match sd with
   | some s => decide (¬ (m.timestamp < s))
   | none => true) &&
  (match ed with
   | some e => decide (¬ (e < m.timestamp))
   | none => true)

/-- `DiscordScraper.filterByTimestamp`: returns the page unchanged when both
bounds are unset, otherwise filters by `keepMsg`. -/
def filterByTimestamp (messages : List Msg) (sd ed : Option Int) : List Msg :=
  match sd, ed with
  | none, none => messages
  | _, _ => messages.filter (keepMsg sd ed)

/-- Observable outcome of one run of the `while (paginationState.hasMore)`
loop of `scrapeChannel`: the accumulated kept messages, the final pagination
state, the trace of `before` cursors passed to `fetchMessageBatch` (one entry
per fetch issued), the raw non-empty pages received, and the error that
escaped the loop, if any. -/
structure RunResult where
  messages : List Msg
  state : PaginationState
  trace : List (Option Nat)
  pages : List (List Msg)
  error : Option (List Char)
deriving DecidableEq

/-- The pagination loop of `scrapeChannel` (DiscordScraper.ts lines 109-157),
with the remote feed abstracted as a function from the `before` cursor to
the fetch outcome, and an explicit fuel bound standing in for the unbounded
`while`. Each iteration: fetch with the current cursor; an empty batch sets
`hasMore := false` and breaks; otherwise the batch is filtered by timestamp,
the kept messages appended, `totalFetched` advanced by the raw batch size,
and the cursor set to the id of the last (oldest) raw message; then, when
`maxMessages > 0` and the kept count has reached it, the accumulator is
truncated (`allMessages.splice(maxMessages)`), `hasMore := false`, break. -/
def scrapeGo (feed : Option Nat → Except (List Char) (List Msg))
    (maxMessages : Nat) (sd ed : Option Int) :
    Nat → List Msg → PaginationState → List (Option Nat) → List (List Msg) →
    RunResult
  | 0, acc, st, tr, pages => ⟨acc, st, tr, pages, none⟩
  | fuel + 1, acc, st, tr, pages =>
    if st.hasMore then
      match feed st.before with
      | Except.error e => ⟨acc, st, tr ++ [st.before], pages, some e⟩
      | Except.ok [] =>
        ⟨acc, { st with hasMore := false }, tr ++ [st.before], pages, none⟩
      | Except.ok (m :: ms) =>
        let batch := m :: ms
        let filtered := filterByTimestamp batch sd ed
        let acc' := acc ++ filtered
        let lastId := (batch.getLast (List.cons_ne_nil m ms)).id
        let st' : PaginationState :=
          { before := some lastId, hasMore := true,
            totalFetched := st.totalFetched + batch.length,
            lastMessageId := some lastId }
        if 0 < maxMessages ∧ maxMessages ≤ acc'.length then
          ⟨acc'.take maxMessages, { st' with hasMore := false },
            tr ++ [st.before], pages ++ [batch], none⟩
        else
          scrapeGo feed maxMessages sd ed fuel acc' st'
            (tr ++ [st.before]) (pages ++ [batch])
    else ⟨acc, st, tr, pages, none⟩

/-- The pagination state created at scrape start:
`{ hasMore: true, totalFetched: 0 }`. -/
def initState : PaginationState :=
  { before := none, hasMore := true, totalFetched := 0, lastMessageId := none }

/-- The fields of `ScraperResult` the core computes (server/channel echo,
`totalAppended` and `duration` are not modelled). -/
structure ScraperResult where
  messages : List Msg
  totalScraped : Nat
  errors : List (List Char)
  warnings : List (List Char)
deriving DecidableEq

/-- `DiscordScraper.scrapeChannel`: authentication, then validation, then the
pagination loop; any error escaping those is caught and the accumulated
messages are returned together with the error message. -/
def scrapeChannel (auth : Except (List Char) Unit)
    (validation : Except (List (List Char)) Unit)
    (feed : Option Nat → Except (List Char) (List Msg))
    (maxMessages : Nat) (sd ed : Option Int) (fuel : Nat) : ScraperResult :=
  match auth with
  | Except.error e => ⟨[], 0, [e], []⟩
  | Except.ok _ =>
    match validation with
    | Except.error ve => ⟨[], 0, ve ++ [('V' :: "alidation failed".data)], []⟩
    | Except.ok _ =>
      let r := scrapeGo feed maxMessages sd ed fuel [] initState [] []
      match r.error with
      | some e => ⟨r.messages, r.messages.length, [e], []⟩
      | none => ⟨r.messages, r.messages.length, [], []⟩

/-- The page a feed answers for a cursor (empty on a fetch error). -/
def pageOf (feed : Option Nat → Except (List Char) (List Msg))
    (c : Option Nat) : List Msg :=
  match feed c with
  | Except.ok b => b
  | Except.error _ => []

/-- The precondition of claim C1 on the remote feed: every successfully
returned page is newest-first (strictly decreasing ids) and, when a `before`
cursor was supplied, contains only ids strictly below it. -/
def GoodFeed (feed : Option Nat → Except (List Char) (List Msg)) : Prop :=
  ∀ c batch, feed c = Except.ok batch →
    List.Chain' (fun a b => b.id < a.id) batch ∧
    ∀ x, c = some x → ∀ m ∈ batch, m.id < x

/-- Ordering between successive cursor values: the later one is a concrete
id, strictly below the earlier one whenever that one is concrete. -/
def CursorRel (a b : Option Nat) : Prop :=
  ∃ y, b = some y ∧ ∀ x, a = some x → y < x

theorem scrapeGo_zero (feed : Option Nat → Except (List Char) (List Msg))
    (maxN : Nat) (sd ed : Option Int) (acc : List Msg) (st : PaginationState)
    (tr : List (Option Nat)) (pages : List (List Msg)) :
    scrapeGo feed maxN sd ed 0 acc st tr pages = ⟨acc, st, tr, pages, none⟩ :=
  rfl

theorem scrapeGo_stopped (feed : Option Nat → Except (List Char) (List Msg))
    (maxN : Nat) (sd ed : Option Int) (fuel : Nat) (acc : List Msg)
    (st : PaginationState) (tr : List (Option Nat)) (pages : List (List Msg))
    (hm : st.hasMore = false) :
    scrapeGo feed maxN sd ed (fuel + 1) acc st tr pages =
      ⟨acc, st, tr, pages, none⟩ := by
  simp [scrapeGo, hm]

theorem scrapeGo_error (feed : Option Nat → Except (List Char) (List Msg))
    (maxN : Nat) (sd ed : Option Int) (fuel : Nat) (acc : List Msg)
    (st : PaginationState) (tr : List (Option Nat)) (pages : List (List Msg))
    (e : List Char) (hm : st.hasMore = true)
    (hf : feed st.before = Except.error e) :
    scrapeGo feed maxN sd ed (fuel + 1) acc st tr pages =
      ⟨acc, st, tr ++ [st.before], pages, some e⟩ := by
  simp [scrapeGo, hm, hf]

theorem scrapeGo_empty (feed : Option Nat → Except (List Char) (List Msg))
    (maxN : Nat) (sd ed : Option Int) (fuel : Nat) (acc : List Msg)
    (st : PaginationState) (tr : List (Option Nat)) (pages : List (List Msg))
    (hm : st.hasMore = true) (hf : feed st.before = Except.ok []) :
    scrapeGo feed maxN sd ed (fuel + 1) acc st tr pages =
      ⟨acc, { st with hasMore := false }, tr ++ [st.before], pages, none⟩ := by
  simp [scrapeGo, hm, hf]

/-- The state after the cursor advance on a raw batch `m :: ms`. -/
def advState (st : PaginationState) (m : Msg) (ms : List Msg) :
    PaginationState :=
  { before := some (((m :: ms).getLast (List.cons_ne_nil m ms)).id),
    hasMore := true,
    totalFetched := st.totalFetched + (m :: ms).length,
    lastMessageId := some (((m :: ms).getLast (List.cons_ne_nil m ms)).id) }

theorem scrapeGo_cons_cap (feed : Option Nat → Except (List Char) (List Msg))
    (maxN : Nat) (sd ed : Option Int) (fuel : Nat) (acc : List Msg)
    (st : PaginationState) (tr : List (Option Nat)) (pages : List (List Msg))
    (m : Msg) (ms : List Msg) (hm : st.hasMore = true)
    (hf : feed st.before = Except.ok (m :: ms))
    (hcap : 0 < maxN ∧ maxN ≤ (acc ++ filterByTimestamp (m :: ms) sd ed).length) :
    scrapeGo feed maxN sd ed (fuel + 1) acc st tr pages =
      ⟨(acc ++ filterByTimestamp (m :: ms) sd ed).take maxN,
        { advState st m ms with hasMore := false },
        tr ++ [st.before], pages ++ [m :: ms], none⟩ := by
  obtain ⟨h1, h2⟩ := hcap
  simp only [List.length_append] at h2
  simp [scrapeGo, hm, hf, advState, h1, h2]

theorem scrapeGo_cons_next (feed : Option Nat → Except (List Char) (List Msg))
    (maxN : Nat) (sd ed : Option Int) (fuel : Nat) (acc : List Msg)
    (st : PaginationState) (tr : List (Option Nat)) (pages : List (List Msg))
    (m : Msg) (ms : List Msg) (hm : st.hasMore = true)
    (hf : feed st.before = Except.ok (m :: ms))
    (hncap : ¬(0 < maxN ∧ maxN ≤ (acc ++ filterByTimestamp (m :: ms) sd ed).length)) :
    scrapeGo feed maxN sd ed (fuel + 1) acc st tr pages =
      scrapeGo feed maxN sd ed fuel (acc ++ filterByTimestamp (m :: ms) sd ed)
        (advState st m ms) (tr ++ [st.before]) (pages ++ [m :: ms]) := by
  simp only [List.length_append] at hncap
  simp [scrapeGo, hm, hf, advState, hncap]

theorem scrapeGo_trace_mono (feed : Option Nat → Except (List Char) (List Msg))
    (maxN : Nat) (sd ed : Option Int) :
    ∀ fuel acc st tr pages, ∃ ext,
      (scrapeGo feed maxN sd ed fuel acc st tr pages).trace = tr ++ ext := by
  intro fuel
  induction fuel with
  | zero => intro acc st tr pages; exact ⟨[], by simp [scrapeGo_zero]⟩
  | succ fuel ih =>
    intro acc st tr pages
    cases hm : st.hasMore with
    | false => exact ⟨[], by rw [scrapeGo_stopped feed maxN sd ed fuel acc st tr pages hm]; simp⟩
    | true =>
      cases hf : feed st.before with
      | error e =>
        exact ⟨[st.before], by
          rw [scrapeGo_error feed maxN sd ed fuel acc st tr pages e hm hf]⟩
      | ok batch =>
        cases batch with
        | nil =>
          exact ⟨[st.before], by
            rw [scrapeGo_empty feed maxN sd ed fuel acc st tr pages hm hf]⟩
        | cons m ms =>
          by_cases hcap :
              0 < maxN ∧ maxN ≤ (acc ++ filterByTimestamp (m :: ms) sd ed).length
          · exact ⟨[st.before], by
              rw [scrapeGo_cons_cap feed maxN sd ed fuel acc st tr pages m ms hm hf hcap]⟩
          · rw [scrapeGo_cons_next feed maxN sd ed fuel acc st tr pages m ms hm hf hcap]
            obtain ⟨ext, hext⟩ := ih (acc ++ filterByTimestamp (m :: ms) sd ed)
              (advState st m ms) (tr ++ [st.before]) (pages ++ [m :: ms])
            exact ⟨st.before :: ext, by simp [hext]⟩

theorem scrapeGo_acc_mono (feed : Option Nat → Except (List Char) (List Msg))
    (sd ed : Option Int) :
    ∀ fuel acc st tr pages, ∃ ext,
      (scrapeGo feed 0 sd ed fuel acc st tr pages).messages = acc ++ ext := by
  intro fuel
  induction fuel with
  | zero => intro acc st tr pages; exact ⟨[], by simp [scrapeGo_zero]⟩
  | succ fuel ih =>
    intro acc st tr pages
    cases hm : st.hasMore with
    | false => exact ⟨[], by rw [scrapeGo_stopped feed 0 sd ed fuel acc st tr pages hm]; simp⟩
    | true =>
      cases hf : feed st.before with
      | error e =>
        exact ⟨[], by rw [scrapeGo_error feed 0 sd ed fuel acc st tr pages e hm hf]; simp⟩
      | ok batch =>
        cases batch with
        | nil =>
          exact ⟨[], by rw [scrapeGo_empty feed 0 sd ed fuel acc st tr pages hm hf]; simp⟩
        | cons m ms =>
          have hncap : ¬(0 < 0 ∧ 0 ≤ (acc ++ filterByTimestamp (m :: ms) sd ed).length) := by
            simp
          rw [scrapeGo_cons_next feed 0 sd ed fuel acc st tr pages m ms hm hf hncap]
          obtain ⟨ext, hext⟩ := ih (acc ++ filterByTimestamp (m :: ms) sd ed)
            (advState st m ms) (tr ++ [st.before]) (pages ++ [m :: ms])
          exact ⟨filterByTimestamp (m :: ms) sd ed ++ ext, by simp [hext]⟩

theorem scrapeGo_pages_ext (feed : Option Nat → Except (List Char) (List Msg))
    (maxN : Nat) (sd ed : Option Int) :
    ∀ fuel acc st tr pages, ∃ ext,
      (scrapeGo feed maxN sd ed fuel acc st tr pages).pages = pages ++ ext ∧
      (scrapeGo feed maxN sd ed fuel acc st tr pages).state.totalFetched =
        st.totalFetched + (ext.map List.length).sum ∧
      ∀ p ∈ ext, p ≠ [] := by
  intro fuel
  induction fuel with
  | zero => intro acc st tr pages; exact ⟨[], by simp [scrapeGo_zero]⟩
  | succ fuel ih =>
    intro acc st tr pages
    cases hm : st.hasMore with
    | false =>
      exact ⟨[], by rw [scrapeGo_stopped feed maxN sd ed fuel acc st tr pages hm]; simp⟩
    | true =>
      cases hf : feed st.before with
      | error e =>
        exact ⟨[], by rw [scrapeGo_error feed maxN sd ed fuel acc st tr pages e hm hf]; simp⟩
      | ok batch =>
        cases batch with
        | nil =>
          exact ⟨[], by rw [scrapeGo_empty feed maxN sd ed fuel acc st tr pages hm hf]; simp⟩
        | cons m ms =>
          by_cases hcap :
              0 < maxN ∧ maxN ≤ (acc ++ filterByTimestamp (m :: ms) sd ed).length
          · refine ⟨[m :: ms], ?_⟩
            rw [scrapeGo_cons_cap feed maxN sd ed fuel acc st tr pages m ms hm hf hcap]
            simp [advState]
          · rw [scrapeGo_cons_next feed maxN sd ed fuel acc st tr pages m ms hm hf hcap]
            obtain ⟨ext, h1, h2, h3⟩ := ih (acc ++ filterByTimestamp (m :: ms) sd ed)
              (advState st m ms) (tr ++ [st.before]) (pages ++ [m :: ms])
            refine ⟨(m :: ms) :: ext, by simp [h1], ?_, ?_⟩
            · rw [h2]; simp [advState]; omega
            · intro p hp
              cases hp with
              | head => exact List.cons_ne_nil m ms
              | tail _ hp' => exact h3 p hp'

theorem scrapeGo_cursor_link (feed : Option Nat → Except (List Char) (List Msg))
    (maxN : Nat) (sd ed : Option Int) :
    ∀ fuel acc st tr pages,
      (∀ c, st.before = some c →
        ((pages.flatten).map Msg.id).getLast? = some c) →
      (st.before = none → pages = []) →
      (∀ c, (scrapeGo feed maxN sd ed fuel acc st tr pages).state.before = some c →
        (((scrapeGo feed maxN sd ed fuel acc st tr pages).pages.flatten).map Msg.id).getLast? = some c) ∧
      ((scrapeGo feed maxN sd ed fuel acc st tr pages).state.before = none →
        (scrapeGo feed maxN sd ed fuel acc st tr pages).pages = []) := by
  intro fuel
  induction fuel with
  | zero =>
    intro acc st tr pages h1 h2
    rw [scrapeGo_zero]
    exact ⟨h1, h2⟩
  | succ fuel ih =>
    intro acc st tr pages h1 h2
    cases hm : st.hasMore with
    | false =>
      rw [scrapeGo_stopped feed maxN sd ed fuel acc st tr pages hm]
      exact ⟨h1, h2⟩
    | true =>
      cases hf : feed st.before with
      | error e =>
        rw [scrapeGo_error feed maxN sd ed fuel acc st tr pages e hm hf]
        exact ⟨h1, h2⟩
      | ok batch =>
        cases batch with
        | nil =>
          rw [scrapeGo_empty feed maxN sd ed fuel acc st tr pages hm hf]
          exact ⟨h1, h2⟩
        | cons m ms =>
          have hlast : (((pages ++ [m :: ms]).flatten).map Msg.id).getLast? =
              some (((m :: ms).getLast (List.cons_ne_nil m ms)).id) := by
            rw [List.flatten_append]
            simp only [List.flatten, List.append_nil]
            rw [List.map_append]
            rw [List.getLast?_append_of_ne_nil]
            · rw [List.getLast?_map, List.getLast?_eq_getLast (m :: ms) (List.cons_ne_nil m ms)]
              rfl
            · simp
          by_cases hcap :
              0 < maxN ∧ maxN ≤ (acc ++ filterByTimestamp (m :: ms) sd ed).length
          · rw [scrapeGo_cons_cap feed maxN sd ed fuel acc st tr pages m ms hm hf hcap]
            constructor
            · intro c hc
              have hc' : ((m :: ms).getLast (List.cons_ne_nil m ms)).id = c := by
                simpa [advState] using hc
              rw [← hc']
              exact hlast
            · intro hc
              simp [advState] at hc
          · rw [scrapeGo_cons_next feed maxN sd ed fuel acc st tr pages m ms hm hf hcap]
            apply ih
            · intro c hc
              have hc' : ((m :: ms).getLast (List.cons_ne_nil m ms)).id = c := by
                simpa [advState] using hc
              rw [← hc']
              exact hlast
            · intro hc
              simp [advState] at hc

theorem scrapeGo_trace_dec (feed : Option Nat → Except (List Char) (List Msg))
    (HG : GoodFeed feed) (maxN : Nat) (sd ed : Option Int) :
    ∀ fuel acc st tr pages, ∃ ext,
      (scrapeGo feed maxN sd ed fuel acc st tr pages).trace = tr ++ ext ∧
      List.Pairwise CursorRel ext ∧
      ∀ b ∈ ext, ∀ c, st.before = some c → ∃ y, b = some y ∧ y ≤ c := by
  intro fuel
  induction fuel with
  | zero =>
    intro acc st tr pages
    exact ⟨[], by simp [scrapeGo_zero], List.Pairwise.nil, by simp⟩
  | succ fuel ih =>
    intro acc st tr pages
    cases hm : st.hasMore with
    | false =>
      refine ⟨[], ?_, List.Pairwise.nil, by simp⟩
      rw [scrapeGo_stopped feed maxN sd ed fuel acc st tr pages hm]; simp
    | true =>
      cases hf : feed st.before with
      | error e =>
        refine ⟨[st.before], ?_, List.pairwise_singleton _ _, ?_⟩
        · rw [scrapeGo_error feed maxN sd ed fuel acc st tr pages e hm hf]
        · intro b hb c hc
          rw [List.mem_singleton] at hb
          exact ⟨c, hb.trans hc, le_refl c⟩
      | ok batch =>
        cases batch with
        | nil =>
          refine ⟨[st.before], ?_, List.pairwise_singleton _ _, ?_⟩
          · rw [scrapeGo_empty feed maxN sd ed fuel acc st tr pages hm hf]
          · intro b hb c hc
            rw [List.mem_singleton] at hb
            exact ⟨c, hb.trans hc, le_refl c⟩
        | cons m ms =>
          obtain ⟨-, hlt⟩ := HG st.before (m :: ms) hf
          have hlastmem : (m :: ms).getLast (List.cons_ne_nil m ms) ∈ m :: ms :=
            List.getLast_mem (List.cons_ne_nil m ms)
          by_cases hcap :
              0 < maxN ∧ maxN ≤ (acc ++ filterByTimestamp (m :: ms) sd ed).length
          · refine ⟨[st.before], ?_, List.pairwise_singleton _ _, ?_⟩
            · rw [scrapeGo_cons_cap feed maxN sd ed fuel acc st tr pages m ms hm hf hcap]
            · intro b hb c hc
              rw [List.mem_singleton] at hb
              exact ⟨c, hb.trans hc, le_refl c⟩
          · rw [scrapeGo_cons_next feed maxN sd ed fuel acc st tr pages m ms hm hf hcap]
            obtain ⟨ext, htr, hpw, hcl⟩ := ih (acc ++ filterByTimestamp (m :: ms) sd ed)
              (advState st m ms) (tr ++ [st.before]) (pages ++ [m :: ms])
            have hcl' : ∀ b ∈ ext, ∃ y, b = some y ∧
                y ≤ ((m :: ms).getLast (List.cons_ne_nil m ms)).id := by
              intro b hb
              exact hcl b hb _ rfl
            refine ⟨st.before :: ext, by simp [htr], ?_, ?_⟩
            · rw [List.pairwise_cons]
              refine ⟨?_, hpw⟩
              intro b hb
              obtain ⟨y, hy, hyle⟩ := hcl' b hb
              exact ⟨y, hy, fun x hx =>
                lt_of_le_of_lt hyle (hlt x hx _ hlastmem)⟩
            · intro b hb c hc
              cases hb with
              | head => exact ⟨c, hc, le_refl c⟩
              | tail _ hb' =>
                obtain ⟨y, hy, hyle⟩ := hcl' b hb'
                exact ⟨y, hy, le_of_lt (lt_of_le_of_lt hyle (hlt c hc _ hlastmem))⟩

theorem scrapeGo_pages_chain (feed : Option Nat → Except (List Char) (List Msg))
    (HG : GoodFeed feed) (maxN : Nat) (sd ed : Option Int) :
    ∀ fuel acc st tr pages,
      ((pages.flatten).map Msg.id).Chain' (fun a b => b < a) →
      (∀ c, st.before = some c →
        ((pages.flatten).map Msg.id).getLast? = some c) →
      (st.before = none → pages = []) →
      (((scrapeGo feed maxN sd ed fuel acc st tr pages).pages.flatten).map
        Msg.id).Chain' (fun a b => b < a) := by
  intro fuel
  induction fuel with
  | zero =>
    intro acc st tr pages hch _ _
    rw [scrapeGo_zero]; exact hch
  | succ fuel ih =>
    intro acc st tr pages hch h1 h2
    cases hm : st.hasMore with
    | false =>
      rw [scrapeGo_stopped feed maxN sd ed fuel acc st tr pages hm]; exact hch
    | true =>
      cases hf : feed st.before with
      | error e =>
        rw [scrapeGo_error feed maxN sd ed fuel acc st tr pages e hm hf]; exact hch
      | ok batch =>
        cases batch with
        | nil =>
          rw [scrapeGo_empty feed maxN sd ed fuel acc st tr pages hm hf]; exact hch
        | cons m ms =>
          obtain ⟨hbatchchain, hlt⟩ := HG st.before (m :: ms) hf
          have hch' : (((pages ++ [m :: ms]).flatten).map Msg.id).Chain'
              (fun a b => b < a) := by
            rw [List.flatten_append]
            simp only [List.flatten, List.append_nil]
            rw [List.map_append]
            rw [List.chain'_append]
            refine ⟨hch, ?_, ?_⟩
            · rw [List.chain'_map]
              exact hbatchchain
            · intro x hx y hy
              cases hb : st.before with
              | none =>
                rw [h2 hb] at hx
                simp at hx
              | some c =>
                rw [h1 c hb] at hx
                rw [Option.mem_def, Option.some.injEq] at hx
                simp only [List.map_cons, List.head?_cons, Option.mem_def,
                  Option.some.injEq] at hy
                rw [← hx, ← hy]
                exact hlt c hb m (List.mem_cons_self m ms)
          have hlast : (((pages ++ [m :: ms]).flatten).map Msg.id).getLast? =
              some (((m :: ms).getLast (List.cons_ne_nil m ms)).id) := by
            rw [List.flatten_append]
            simp only [List.flatten, List.append_nil]
            rw [List.map_append]
            rw [List.getLast?_append_of_ne_nil]
            · rw [List.getLast?_map, List.getLast?_eq_getLast (m :: ms) (List.cons_ne_nil m ms)]
              rfl
            · simp
          by_cases hcap :
              0 < maxN ∧ maxN ≤ (acc ++ filterByTimestamp (m :: ms) sd ed).length
          · rw [scrapeGo_cons_cap feed maxN sd ed fuel acc st tr pages m ms hm hf hcap]
            exact hch'
          · rw [scrapeGo_cons_next feed maxN sd ed fuel acc st tr pages m ms hm hf hcap]
            apply ih _ _ _ _ hch'
            · intro c hc
              have hc' : ((m :: ms).getLast (List.cons_ne_nil m ms)).id = c := by
                simpa [advState] using hc
              rw [← hc']
              exact hlast
            · intro hc
              simp [advState] at hc

/-- C1: for every run and every successfully fetched non-empty page, the
cursor is set to the id of the last (oldest) raw message, so the sequence of
`before` cursor values across successive fetches is strictly decreasing and
repeat-free, and no message is fetched twice within one run — under the
precondition (`GoodFeed`) that the feed returns newest-first pages whose ids
lie strictly below the supplied `before` cursor. -/
theorem scrape_cursor_strictly_decreasing
    (feed : Option Nat → Except (List Char) (List Msg)) (maxN : Nat)
    (sd ed : Option Int) (fuel : Nat) (HG : GoodFeed feed) :
    List.Pairwise CursorRel
      (scrapeGo feed maxN sd ed fuel [] initState [] []).trace ∧
    (((scrapeGo feed maxN sd ed fuel [] initState [] []).pages.flatten).map
      Msg.id).Chain' (fun a b => b < a) ∧
    (((scrapeGo feed maxN sd ed fuel [] initState [] []).pages.flatten).map
      Msg.id).Nodup ∧
    (∀ c, (scrapeGo feed maxN sd ed fuel [] initState [] []).state.before = some c →
      (((scrapeGo feed maxN sd ed fuel [] initState [] []).pages.flatten).map
        Msg.id).getLast? = some c) := by
  obtain ⟨ext, htr, hpw, -⟩ :=
    scrapeGo_trace_dec feed HG maxN sd ed fuel [] initState [] []
  have hch := scrapeGo_pages_chain feed HG maxN sd ed fuel [] initState [] []
    (by simp) (by intro c hc; simp [initState] at hc) (fun _ => rfl)
  have hlink := scrapeGo_cursor_link feed maxN sd ed fuel [] initState [] []
    (by intro c hc; simp [initState] at hc) (fun _ => rfl)
  refine ⟨?_, hch, ?_, hlink.1⟩
  · have : (scrapeGo feed maxN sd ed fuel [] initState [] []).trace = ext := by
      simpa using htr
    rw [this]
    exact hpw
  · have hp := (List.chain'_iff_pairwise).mp hch
    exact hp.imp fun h => (Nat.ne_of_lt h).symm

/-- A concrete feed satisfying `GoodFeed`: the first page holds ids 5 and 3,
every later page is empty. -/
def feedW : Option Nat → Except (List Char) (List Msg) :=
  fun c =>
    match c with
    | none => Except.ok [⟨5, 0⟩, ⟨3, 0⟩]
    | some _ => Except.ok []

theorem feedW_good : GoodFeed feedW := by
  intro c batch h
  cases c with
  | none =>
    injection h with h'
    subst h'
    constructor
    · simp [List.chain'_cons]
    · intro x hx
      exact Option.noConfusion hx
  | some v =>
    injection h with h'
    subst h'
    exact ⟨List.chain'_nil, fun x _ m hm => absurd hm (List.not_mem_nil m)⟩

theorem scrape_cursor_strictly_decreasing_witness :
    List.Pairwise CursorRel
      (scrapeGo feedW 0 none none 5 [] initState [] []).trace ∧
    (((scrapeGo feedW 0 none none 5 [] initState [] []).pages.flatten).map
      Msg.id).Chain' (fun a b => b < a) ∧
    (((scrapeGo feedW 0 none none 5 [] initState [] []).pages.flatten).map
      Msg.id).Nodup ∧
    (∀ c, (scrapeGo feedW 0 none none 5 [] initState [] []).state.before = some c →
      (((scrapeGo feedW 0 none none 5 [] initState [] []).pages.flatten).map
        Msg.id).getLast? = some c) :=
  scrape_cursor_strictly_decreasing feedW 0 none none 5 feedW_good

theorem scrapeGo_empty_page_stop
    (feed : Option Nat → Except (List Char) (List Msg)) (maxN : Nat)
    (sd ed : Option Int) :
    ∀ fuel acc st tr pages, ∃ ext,
      (scrapeGo feed maxN sd ed fuel acc st tr pages).trace = tr ++ ext ∧
      (∀ c ∈ ext, feed c = Except.ok [] →
        ext.getLast? = some c ∧
        (scrapeGo feed maxN sd ed fuel acc st tr pages).state.hasMore = false) ∧
      (st.hasMore = true →
        (scrapeGo feed maxN sd ed fuel acc st tr pages).state.hasMore = false →
        (scrapeGo feed maxN sd ed fuel acc st tr pages).error = none →
        (maxN = 0 ∨
          (scrapeGo feed maxN sd ed fuel acc st tr pages).messages.length < maxN) →
        ∃ c, ext.getLast? = some c ∧ feed c = Except.ok []) := by
  intro fuel
  induction fuel with
  | zero =>
    intro acc st tr pages
    refine ⟨[], by simp [scrapeGo_zero], by simp, ?_⟩
    rw [scrapeGo_zero]
    intro h1 h2
    exact absurd (h2.symm.trans h1) Bool.false_ne_true
  | succ fuel ih =>
    intro acc st tr pages
    cases hm : st.hasMore with
    | false =>
      rw [scrapeGo_stopped feed maxN sd ed fuel acc st tr pages hm]
      refine ⟨[], by simp, by simp, ?_⟩
      intro h1
      exact absurd h1 Bool.false_ne_true
    | true =>
      cases hf : feed st.before with
      | error e =>
        rw [scrapeGo_error feed maxN sd ed fuel acc st tr pages e hm hf]
        refine ⟨[st.before], rfl, ?_, ?_⟩
        · intro c hc hempty
          rw [List.mem_singleton] at hc
          rw [hc] at hempty
          rw [hf] at hempty
          exact absurd hempty (by simp)
        · intro _ _ h3
          exact absurd h3 (by simp)
      | ok batch =>
        cases batch with
        | nil =>
          rw [scrapeGo_empty feed maxN sd ed fuel acc st tr pages hm hf]
          refine ⟨[st.before], rfl, ?_, ?_⟩
          · intro c hc _
            rw [List.mem_singleton] at hc
            rw [hc]
            exact ⟨rfl, rfl⟩
          · intro _ _ _ _
            exact ⟨st.before, rfl, hf⟩
        | cons m ms =>
          by_cases hcap :
              0 < maxN ∧ maxN ≤ (acc ++ filterByTimestamp (m :: ms) sd ed).length
          · rw [scrapeGo_cons_cap feed maxN sd ed fuel acc st tr pages m ms hm hf hcap]
            refine ⟨[st.before], rfl, ?_, ?_⟩
            · intro c hc hempty
              rw [List.mem_singleton] at hc
              rw [hc, hf] at hempty
              injection hempty with h'
              exact absurd h' (List.cons_ne_nil m ms)
            · intro _ _ _ h4
              exfalso
              have hlen : (List.take maxN
                  (acc ++ filterByTimestamp (m :: ms) sd ed)).length = maxN := by
                rw [List.length_take]
                omega
              simp only [hlen] at h4
              omega
          · rw [scrapeGo_cons_next feed maxN sd ed fuel acc st tr pages m ms hm hf hcap]
            obtain ⟨ext, htr, hcl2, hcl3⟩ := ih (acc ++ filterByTimestamp (m :: ms) sd ed)
              (advState st m ms) (tr ++ [st.before]) (pages ++ [m :: ms])
            have hlift : ∀ c : Option Nat, ext.getLast? = some c →
                (st.before :: ext).getLast? = some c := by
              intro c hc
              have hne : ext ≠ [] := by
                intro h
                rw [h] at hc
                exact absurd hc (by simp)
              have := List.getLast?_append_of_ne_nil [st.before] hne
              simp only [List.singleton_append] at this
              rw [this, hc]
            refine ⟨st.before :: ext, by simp [htr], ?_, ?_⟩
            · intro c hc hempty
              cases hc with
              | head =>
                rw [hf] at hempty
                injection hempty with h'
                exact absurd h' (List.cons_ne_nil m ms)
              | tail _ hc' =>
                obtain ⟨hlast, hmore⟩ := hcl2 c hc' hempty
                exact ⟨hlift c hlast, hmore⟩
            · intro _ h2 h3 h4
              obtain ⟨c, hlast, hfeed⟩ := hcl3 rfl h2 h3 h4
              exact ⟨c, hlift c hlast, hfeed⟩

/-- C2: whenever a fetch returns a page of size 0, the pagination state is
marked `hasMore := false` and no further fetch is issued in that run (the
empty-page cursor is the last entry of the fetch trace); conversely, a run
that ends with `hasMore = false`, no error and the cap not reached can only
have ended because its last fetch returned an empty page — the empty page is
the sole feed-side termination signal. -/
theorem scrape_empty_page_terminates
    (feed : Option Nat → Except (List Char) (List Msg)) (maxN : Nat)
    (sd ed : Option Int) (fuel : Nat) :
    (∀ c ∈ (scrapeGo feed maxN sd ed fuel [] initState [] []).trace,
      feed c = Except.ok [] →
      (scrapeGo feed maxN sd ed fuel [] initState [] []).trace.getLast? = some c ∧
      (scrapeGo feed maxN sd ed fuel [] initState [] []).state.hasMore = false) ∧
    ((scrapeGo feed maxN sd ed fuel [] initState [] []).state.hasMore = false →
      (scrapeGo feed maxN sd ed fuel [] initState [] []).error = none →
      (maxN = 0 ∨
        (scrapeGo feed maxN sd ed fuel [] initState [] []).messages.length < maxN) →
      ∃ c, (scrapeGo feed maxN sd ed fuel [] initState [] []).trace.getLast? = some c ∧
        feed c = Except.ok []) := by
  obtain ⟨ext, htr, hcl2, hcl3⟩ :=
    scrapeGo_empty_page_stop feed maxN sd ed fuel [] initState [] []
  have htr' : (scrapeGo feed maxN sd ed fuel [] initState [] []).trace = ext := by
    simpa using htr
  rw [htr']
  exact ⟨hcl2, hcl3 rfl⟩

/-- A feed that is empty from the start. -/
def feedE : Option Nat → Except (List Char) (List Msg) :=
  fun _ => Except.ok []

theorem scrape_empty_page_terminates_witness :
    ((scrapeGo feedE 0 none none 3 [] initState [] []).trace.getLast? = some none ∧
      (scrapeGo feedE 0 none none 3 [] initState [] []).state.hasMore = false) ∧
    (∃ c, (scrapeGo feedE 0 none none 3 [] initState [] []).trace.getLast? = some c ∧
      feedE c = Except.ok []) := by
  refine ⟨(scrape_empty_page_terminates feedE 0 none none 3).1 none ?_ rfl,
    (scrape_empty_page_terminates feedE 0 none none 3).2 ?_ ?_ ?_⟩
  · decide
  · decide
  · decide
  · exact Or.inl rfl

theorem scrapeGo_cap_vs_unlimited
    (feed : Option Nat → Except (List Char) (List Msg)) (sd ed : Option Int)
    (K : Nat) (hK : 0 < K) :
    ∀ fuel acc st tr pages, acc.length < K →
      (scrapeGo feed K sd ed fuel acc st tr pages).messages =
        ((scrapeGo feed 0 sd ed fuel acc st tr pages).messages).take K ∧
      (∃ ext, (scrapeGo feed 0 sd ed fuel acc st tr pages).trace =
        (scrapeGo feed K sd ed fuel acc st tr pages).trace ++ ext) ∧
      ((scrapeGo feed K sd ed fuel acc st tr pages).messages.length = K →
        (scrapeGo feed K sd ed fuel acc st tr pages).state.hasMore = false ∧
        (scrapeGo feed K sd ed fuel acc st tr pages).error = none) := by
  intro fuel
  induction fuel with
  | zero =>
    intro acc st tr pages hlen
    rw [scrapeGo_zero, scrapeGo_zero]
    refine ⟨(List.take_of_length_le (le_of_lt hlen)).symm, ⟨[], by simp⟩, ?_⟩
    intro h
    exfalso
    dsimp only at h
    omega
  | succ fuel ih =>
    intro acc st tr pages hlen
    cases hm : st.hasMore with
    | false =>
      rw [scrapeGo_stopped feed K sd ed fuel acc st tr pages hm,
        scrapeGo_stopped feed 0 sd ed fuel acc st tr pages hm]
      refine ⟨(List.take_of_length_le (le_of_lt hlen)).symm, ⟨[], by simp⟩, ?_⟩
      intro h
      exfalso
      dsimp only at h
      omega
    | true =>
      cases hf : feed st.before with
      | error e =>
        rw [scrapeGo_error feed K sd ed fuel acc st tr pages e hm hf,
          scrapeGo_error feed 0 sd ed fuel acc st tr pages e hm hf]
        refine ⟨(List.take_of_length_le (le_of_lt hlen)).symm, ⟨[], by simp⟩, ?_⟩
        intro h
        exfalso
        dsimp only at h
        omega
      | ok batch =>
        cases batch with
        | nil =>
          rw [scrapeGo_empty feed K sd ed fuel acc st tr pages hm hf,
            scrapeGo_empty feed 0 sd ed fuel acc st tr pages hm hf]
          refine ⟨(List.take_of_length_le (le_of_lt hlen)).symm, ⟨[], by simp⟩, ?_⟩
          intro h
          exfalso
          dsimp only at h
          omega
        | cons m ms =>
          have hncap0 : ¬(0 < 0 ∧ 0 ≤ (acc ++ filterByTimestamp (m :: ms) sd ed).length) := by
            simp
          rw [scrapeGo_cons_next feed 0 sd ed fuel acc st tr pages m ms hm hf hncap0]
          by_cases hcap :
              0 < K ∧ K ≤ (acc ++ filterByTimestamp (m :: ms) sd ed).length
          · rw [scrapeGo_cons_cap feed K sd ed fuel acc st tr pages m ms hm hf hcap]
            obtain ⟨ext, hext⟩ := scrapeGo_acc_mono feed sd ed fuel
              (acc ++ filterByTimestamp (m :: ms) sd ed)
              (advState st m ms) (tr ++ [st.before]) (pages ++ [m :: ms])
            obtain ⟨ext2, hext2⟩ := scrapeGo_trace_mono feed 0 sd ed fuel
              (acc ++ filterByTimestamp (m :: ms) sd ed)
              (advState st m ms) (tr ++ [st.before]) (pages ++ [m :: ms])
            refine ⟨?_, ⟨ext2, by rw [hext2]⟩, ?_⟩
            · rw [hext, List.take_append_of_le_length hcap.2]
            · intro _
              exact ⟨rfl, rfl⟩
          · rw [scrapeGo_cons_next feed K sd ed fuel acc st tr pages m ms hm hf hcap]
            have hlen' : (acc ++ filterByTimestamp (m :: ms) sd ed).length < K := by
              rcases Nat.lt_or_ge (acc ++ filterByTimestamp (m :: ms) sd ed).length K with h | h
              · exact h
              · exact absurd ⟨hK, h⟩ hcap
            exact ih (acc ++ filterByTimestamp (m :: ms) sd ed)
              (advState st m ms) (tr ++ [st.before]) (pages ++ [m :: ms]) hlen'

/-- C3: with `maxMessages = K > 0` the run keeps exactly the first
`min(K, totalAvailable)` kept messages — its message list is the length-`K`
truncation of the unlimited (`maxMessages = 0`) run over the same feed — and
the moment the kept count reaches `K` the state is marked exhausted
(`hasMore = false`, no error) and the remaining fetches of the unlimited run
are not issued (the capped trace is a prefix of the unlimited trace). -/
theorem scrape_max_messages_cap
    (feed : Option Nat → Except (List Char) (List Msg)) (sd ed : Option Int)
    (K fuel : Nat) (hK : 0 < K) :
    (scrapeGo feed K sd ed fuel [] initState [] []).messages =
      ((scrapeGo feed 0 sd ed fuel [] initState [] []).messages).take K ∧
    (scrapeGo feed K sd ed fuel [] initState [] []).messages.length =
      min K (scrapeGo feed 0 sd ed fuel [] initState [] []).messages.length ∧
    ((scrapeGo feed K sd ed fuel [] initState [] []).messages.length = K →
      (scrapeGo feed K sd ed fuel [] initState [] []).state.hasMore = false ∧
      (scrapeGo feed K sd ed fuel [] initState [] []).error = none) ∧
    (∃ ext, (scrapeGo feed 0 sd ed fuel [] initState [] []).trace =
      (scrapeGo feed K sd ed fuel [] initState [] []).trace ++ ext) := by
  obtain ⟨h1, h2, h3⟩ := scrapeGo_cap_vs_unlimited feed sd ed K hK fuel
    [] initState [] [] (by simpa using hK)
  refine ⟨h1, ?_, h3, h2⟩
  rw [h1, List.length_take]

theorem scrape_max_messages_cap_witness :
    0 < 1 ∧
    ((scrapeGo feedW 1 none none 5 [] initState [] []).messages =
      ((scrapeGo feedW 0 none none 5 [] initState [] []).messages).take 1 ∧
    (scrapeGo feedW 1 none none 5 [] initState [] []).messages.length =
      min 1 (scrapeGo feedW 0 none none 5 [] initState [] []).messages.length ∧
    ((scrapeGo feedW 1 none none 5 [] initState [] []).messages.length = 1 →
      (scrapeGo feedW 1 none none 5 [] initState [] []).state.hasMore = false ∧
      (scrapeGo feedW 1 none none 5 [] initState [] []).error = none) ∧
    (∃ ext, (scrapeGo feedW 0 none none 5 [] initState [] []).trace =
      (scrapeGo feedW 1 none none 5 [] initState [] []).trace ++ ext)) :=
  ⟨by decide, scrape_max_messages_cap feedW none none 1 5 (by decide)⟩

theorem filterByTimestamp_mem (msgs : List Msg) (sd ed : Option Int) (m : Msg) :
    m ∈ filterByTimestamp msgs sd ed ↔
      m ∈ msgs ∧ (∀ s, sd = some s → s ≤ m.timestamp) ∧
        (∀ e, ed = some e → m.timestamp ≤ e) := by
  cases sd with
  | none =>
    cases ed with
    | none => simp [filterByTimestamp]
    | some e => simp [filterByTimestamp, keepMsg, List.mem_filter, not_lt]
  | some s =>
    cases ed with
    | none => simp [filterByTimestamp, keepMsg, List.mem_filter, not_lt]
    | some e =>
      simp [filterByTimestamp, keepMsg, List.mem_filter, not_lt, and_assoc]

/-- C4: a fetched message is kept by `filterByTimestamp` iff its timestamp
lies within the optional inclusive `startDate`/`endDate` bounds (an unset
bound imposing no constraint), while cursor advancement and the
`totalFetched` counter are computed from the raw unfiltered pages: the final
`totalFetched` is the sum of the raw page sizes, and the final cursor is the
id of the last raw message walked past, whether or not it was kept. -/
theorem scrape_filter_and_raw_advance
    (feed : Option Nat → Except (List Char) (List Msg)) (maxN : Nat)
    (sd ed : Option Int) (fuel : Nat) :
    (∀ msgs m, m ∈ filterByTimestamp msgs sd ed ↔
      m ∈ msgs ∧ (∀ s, sd = some s → s ≤ m.timestamp) ∧
        (∀ e, ed = some e → m.timestamp ≤ e)) ∧
    (scrapeGo feed maxN sd ed fuel [] initState [] []).state.totalFetched =
      (((scrapeGo feed maxN sd ed fuel [] initState [] []).pages).map
        List.length).sum ∧
    (∀ c, (scrapeGo feed maxN sd ed fuel [] initState [] []).state.before = some c →
      (((scrapeGo feed maxN sd ed fuel [] initState [] []).pages.flatten).map
        Msg.id).getLast? = some c) := by
  refine ⟨fun msgs m => filterByTimestamp_mem msgs sd ed m, ?_, ?_⟩
  · obtain ⟨ext, hpg, htf, -⟩ :=
      scrapeGo_pages_ext feed maxN sd ed fuel [] initState [] []
    rw [htf, hpg]
    simp [initState]
  · exact (scrapeGo_cursor_link feed maxN sd ed fuel [] initState [] []
      (by intro c hc; simp [initState] at hc) (fun _ => rfl)).1

theorem scrapeGo_error_keeps_acc
    (feed : Option Nat → Except (List Char) (List Msg)) (maxN : Nat)
    (sd ed : Option Int) :
    ∀ fuel acc st tr pages e,
      (scrapeGo feed maxN sd ed fuel acc st tr pages).error = some e →
      ∃ ext, ext ≠ [] ∧
        (scrapeGo feed maxN sd ed fuel acc st tr pages).trace = tr ++ ext ∧
        (scrapeGo feed maxN sd ed fuel acc st tr pages).messages =
          acc ++ ((ext.dropLast).map
            fun c => filterByTimestamp (pageOf feed c) sd ed).flatten := by
  intro fuel
  induction fuel with
  | zero =>
    intro acc st tr pages e herr
    rw [scrapeGo_zero] at herr
    exact absurd herr (by simp)
  | succ fuel ih =>
    intro acc st tr pages e herr
    cases hm : st.hasMore with
    | false =>
      rw [scrapeGo_stopped feed maxN sd ed fuel acc st tr pages hm] at herr ⊢
      exact absurd herr (by simp)
    | true =>
      cases hf : feed st.before with
      | error e' =>
        rw [scrapeGo_error feed maxN sd ed fuel acc st tr pages e' hm hf] at herr ⊢
        exact ⟨[st.before], by simp, rfl, by simp⟩
      | ok batch =>
        cases batch with
        | nil =>
          rw [scrapeGo_empty feed maxN sd ed fuel acc st tr pages hm hf] at herr ⊢
          exact absurd herr (by simp)
        | cons m ms =>
          by_cases hcap :
              0 < maxN ∧ maxN ≤ (acc ++ filterByTimestamp (m :: ms) sd ed).length
          · rw [scrapeGo_cons_cap feed maxN sd ed fuel acc st tr pages m ms hm hf hcap] at herr ⊢
            exact absurd herr (by simp)
          · rw [scrapeGo_cons_next feed maxN sd ed fuel acc st tr pages m ms hm hf hcap] at herr ⊢
            obtain ⟨ext, hne, htr, hmsg⟩ := ih (acc ++ filterByTimestamp (m :: ms) sd ed)
              (advState st m ms) (tr ++ [st.before]) (pages ++ [m :: ms]) e herr
            refine ⟨st.before :: ext, List.cons_ne_nil _ _, by simp [htr], ?_⟩
            rw [hmsg, List.dropLast_cons_of_ne_nil hne]
            simp only [List.map_cons, List.flatten_cons]
            rw [List.append_assoc]
            have : pageOf feed st.before = m :: ms := by simp [pageOf, hf]
            rw [this]

/-- C9: when a run is aborted by an unrecovered error — authentication
failure, validation failure, or a fetch error surfaced by the retry
wrapper — `scrapeChannel` still returns a result whose `messages` are all
messages accumulated from the pages completed before the failure, whose
`totalScraped` equals that count, and whose error list is non-empty. -/
theorem scrapeChannel_partial_results (auth : Except (List Char) Unit)
    (validation : Except (List (List Char)) Unit)
    (feed : Option Nat → Except (List Char) (List Msg)) (maxN : Nat)
    (sd ed : Option Int) (fuel : Nat) :
    (scrapeChannel auth validation feed maxN sd ed fuel).totalScraped =
      (scrapeChannel auth validation feed maxN sd ed fuel).messages.length ∧
    (∀ e, auth = Except.error e →
      (scrapeChannel auth validation feed maxN sd ed fuel).errors ≠ [] ∧
      (scrapeChannel auth validation feed maxN sd ed fuel).messages = []) ∧
    (∀ ve, auth = Except.ok () → validation = Except.error ve →
      (scrapeChannel auth validation feed maxN sd ed fuel).errors ≠ [] ∧
      (scrapeChannel auth validation feed maxN sd ed fuel).messages = []) ∧
    (∀ e, auth = Except.ok () → validation = Except.ok () →
      (scrapeGo feed maxN sd ed fuel [] initState [] []).error = some e →
      (scrapeChannel auth validation feed maxN sd ed fuel).errors ≠ [] ∧
      ∃ ext, ext ≠ [] ∧
        (scrapeGo feed maxN sd ed fuel [] initState [] []).trace = ext ∧
        (scrapeChannel auth validation feed maxN sd ed fuel).messages =
          ((ext.dropLast).map
            fun c => filterByTimestamp (pageOf feed c) sd ed).flatten) := by
  refine ⟨?_, ?_, ?_, ?_⟩
  · cases auth with
    | error e => rfl
    | ok u =>
      cases validation with
      | error ve => rfl
      | ok v =>
        cases u
        cases v
        cases hr : (scrapeGo feed maxN sd ed fuel [] initState [] []).error with
        | none => simp [scrapeChannel, hr]
        | some e => simp [scrapeChannel, hr]
  · intro e he
    subst he
    exact ⟨by simp [scrapeChannel], rfl⟩
  · intro ve ha hv
    subst ha
    subst hv
    exact ⟨by simp [scrapeChannel], rfl⟩
  · intro e ha hv herr
    subst ha
    subst hv
    obtain ⟨ext, hne, htr, hmsg⟩ :=
      scrapeGo_error_keeps_acc feed maxN sd ed fuel [] initState [] [] e herr
    refine ⟨by simp [scrapeChannel, herr], ext, hne, by simpa using htr, ?_⟩
    simp only [scrapeChannel, herr]
    simpa using hmsg

/-- A feed whose first page holds ids 5 and 3 and whose second fetch fails. -/
def feedF : Option Nat → Except (List Char) (List Msg) :=
  fun c =>
    match c with
    | none => Except.ok [⟨5, 0⟩, ⟨3, 0⟩]
    | some _ => Except.error ['e', 'r', 'r']

theorem scrapeChannel_partial_results_witness :
    (scrapeChannel (Except.ok ()) (Except.ok ()) feedF 0 none none 5).errors ≠ [] ∧
    ∃ ext, ext ≠ [] ∧
      (scrapeGo feedF 0 none none 5 [] initState [] []).trace = ext ∧
      (scrapeChannel (Except.ok ()) (Except.ok ()) feedF 0 none none 5).messages =
        ((ext.dropLast).map
          fun c => filterByTimestamp (pageOf feedF c) none none).flatten :=
  (scrapeChannel_partial_results (Except.ok ()) (Except.ok ()) feedF 0
    none none 5).2.2.2 ['e', 'r', 'r'] rfl rfl (by decide)

/-- Does `needle` occur at the start of the haystack? -/
def listStarts : List Char → List Char → Bool
  | [], _ => true
  | _ :: _, [] => false
  | a :: as, b :: bs => a == b && listStarts as bs

/-- JavaScript `String.includes`: does `needle` occur anywhere in the
haystack? -/
def listHasSub (needle : List Char) : List Char → Bool
  | [] => listStarts needle []
  | b :: bs => listStarts needle (b :: bs) || listHasSub needle bs

/-- The rate-limit test of `RateLimiter.executeWithRetry`:
`lastError.message.includes("429")`. -/
def is429 (msg : List Char) : Bool :=
  listHasSub ['4', '2', '9'] msg

/-- Suspension events observable from the rate limiter: a rate-limit
admission wait (`waitForRateLimit`) before each attempt, and a backoff sleep
of the given number of milliseconds. -/
inductive Ev where
  | admission : Ev
  | backoff : Nat → Ev
deriving DecidableEq

/-- `RATE_LIMIT` from src/config/constants. -/
def RATE_LIMIT_REQUESTS_PER_SECOND : Nat := 10

def RATE_LIMIT_MAX_RETRIES : Nat := 3

def RATE_LIMIT_RETRY_DELAY_MS : Nat := 1000

/-- The `for (attempt = 1; attempt <= maxRetries; attempt++)` loop of
`RateLimiter.executeWithRetry`, with `remaining = maxRetries - attempt + 1`
as the structural measure. Each attempt records an admission wait then runs
the operation; a failure whose message contains "429" is retried after a
backoff of `retryDelay * 2^(attempt-1)` ms while attempts remain; any other
failure propagates immediately; falling off the loop throws the last
error. -/
def retryGo {α : Type} (op : Nat → Except (List Char) α)
    (maxRetries retryDelay : Nat) :
    Nat → Nat → Option (List Char) → List Ev →
    Except (List Char) α × List Ev
  | 0, _, lastErr, evs => (Except.error (lastErr.getD []), evs)
  | remaining + 1, attempt, _, evs =>
    match op attempt with
    | Except.ok v => (Except.ok v, evs ++ [Ev.admission])
    | Except.error e =>
      if is429 e then
        if attempt < maxRetries then
          retryGo op maxRetries retryDelay remaining (attempt + 1) (some e)
            (evs ++ [Ev.admission, Ev.backoff (retryDelay * 2 ^ (attempt - 1))])
        else
          retryGo op maxRetries retryDelay remaining (attempt + 1) (some e)
            (evs ++ [Ev.admission])
      else (Except.error e, evs ++ [Ev.admission])

/-- `RateLimiter.executeWithRetry`, returning the outcome together with the
trace of suspension events. -/
def executeWithRetry {α : Type} (op : Nat → Except (List Char) α)
    (maxRetries retryDelay : Nat) : Except (List Char) α × List Ev :=
  retryGo op maxRetries retryDelay maxRetries 1 none []

/-- C5: behavior of `executeWithRetry` at the configured
`maxRetries = 3`, `retryDelay = 1000`: each attempt records a rate-limit
admission before running the operation; a failure whose message carries the
429 signal is retried after a backoff of `1000 * 2^(attempt-1)` ms (1 s then
2 s) while attempts remain; a non-rate-limit failure propagates immediately
without retry; and when all three attempts fail the last error is
surfaced. -/
theorem executeWithRetry_behavior {α : Type} (op : Nat → Except (List Char) α) :
    (∀ v, op 1 = Except.ok v →
      executeWithRetry op RATE_LIMIT_MAX_RETRIES RATE_LIMIT_RETRY_DELAY_MS =
        (Except.ok v, [Ev.admission])) ∧
    (∀ e, op 1 = Except.error e → is429 e = false →
      executeWithRetry op RATE_LIMIT_MAX_RETRIES RATE_LIMIT_RETRY_DELAY_MS =
        (Except.error e, [Ev.admission])) ∧
    (∀ e v, op 1 = Except.error e → is429 e = true → op 2 = Except.ok v →
      executeWithRetry op RATE_LIMIT_MAX_RETRIES RATE_LIMIT_RETRY_DELAY_MS =
        (Except.ok v, [Ev.admission, Ev.backoff 1000, Ev.admission])) ∧
    (∀ e e2, op 1 = Except.error e → is429 e = true →
      op 2 = Except.error e2 → is429 e2 = false →
      executeWithRetry op RATE_LIMIT_MAX_RETRIES RATE_LIMIT_RETRY_DELAY_MS =
        (Except.error e2, [Ev.admission, Ev.backoff 1000, Ev.admission])) ∧
    (∀ e e2 v, op 1 = Except.error e → is429 e = true →
      op 2 = Except.error e2 → is429 e2 = true → op 3 = Except.ok v →
      executeWithRetry op RATE_LIMIT_MAX_RETRIES RATE_LIMIT_RETRY_DELAY_MS =
        (Except.ok v,
          [Ev.admission, Ev.backoff 1000, Ev.admission, Ev.backoff 2000, Ev.admission])) ∧
    (∀ e e2 e3, op 1 = Except.error e → is429 e = true →
      op 2 = Except.error e2 → is429 e2 = true → op 3 = Except.error e3 →
      executeWithRetry op RATE_LIMIT_MAX_RETRIES RATE_LIMIT_RETRY_DELAY_MS =
        (Except.error e3,
          [Ev.admission, Ev.backoff 1000, Ev.admission, Ev.backoff 2000, Ev.admission])) := by
  have h3 : RATE_LIMIT_MAX_RETRIES = 2 + 1 := rfl
  refine ⟨?_, ?_, ?_, ?_, ?_, ?_⟩
  · intro v h1
    simp [executeWithRetry, RATE_LIMIT_MAX_RETRIES, RATE_LIMIT_RETRY_DELAY_MS,
      retryGo, h1]
  · intro e h1 h429
    simp [executeWithRetry, RATE_LIMIT_MAX_RETRIES, RATE_LIMIT_RETRY_DELAY_MS,
      retryGo, h1, h429]
  · intro e v h1 h429 h2
    simp [executeWithRetry, RATE_LIMIT_MAX_RETRIES, RATE_LIMIT_RETRY_DELAY_MS,
      retryGo, h1, h429, h2]
  · intro e e2 h1 h429 h2 h429b
    simp [executeWithRetry, RATE_LIMIT_MAX_RETRIES, RATE_LIMIT_RETRY_DELAY_MS,
      retryGo, h1, h429, h2, h429b]
  · intro e e2 v h1 h429 h2 h429b hop3
    simp [executeWithRetry, RATE_LIMIT_MAX_RETRIES, RATE_LIMIT_RETRY_DELAY_MS,
      retryGo, h1, h429, h2, h429b, hop3]
  · intro e e2 e3 h1 h429 h2 h429b hop3
    cases h429c : is429 e3 with
    | false =>
      simp [executeWithRetry, RATE_LIMIT_MAX_RETRIES, RATE_LIMIT_RETRY_DELAY_MS,
        retryGo, h1, h429, h2, h429b, hop3, h429c]
    | true =>
      simp [executeWithRetry, RATE_LIMIT_MAX_RETRIES, RATE_LIMIT_RETRY_DELAY_MS,
        retryGo, h1, h429, h2, h429b, hop3, h429c]

theorem executeWithRetry_behavior_witness :
    executeWithRetry
      (fun i => if i = 1 then Except.error ['4', '2', '9'] else Except.ok 7)
      RATE_LIMIT_MAX_RETRIES RATE_LIMIT_RETRY_DELAY_MS =
      (Except.ok 7, [Ev.admission, Ev.backoff 1000, Ev.admission]) :=
  (executeWithRetry_behavior
    (fun i => if i = 1 then Except.error ['4', '2', '9'] else Except.ok 7)).2.2.1
    ['4', '2', '9'] 7 rfl (by decide) rfl

/-- A raw HTTP response: fetch resolves with one of these even when the
status signals an error. -/
structure HttpResponse where
  status : Nat
  body : List Msg
deriving DecidableEq

/-- `Response.ok`: status in the 200-299 range. -/
def responseOk (r : HttpResponse) : Bool :=
  decide (200 ≤ r.status ∧ r.status ≤ 299)

/-- The error text thrown by `fetchMessageBatch` on a non-2xx response:
"API returned status " followed by the status code. -/
def statusMessage (status : Nat) : List Char :=
  ("API returned status ".data) ++ (toString status).data

/-- `DiscordScraper.fetchMessageBatch`: the callback handed to
`executeWithRetry` only performs the `fetch` call, which resolves with the
`HttpResponse` object even when the status is 429 (fetch rejects only on
network failure); the `response.ok` check — and the throw of
"API returned status ..." — happens after the retry wrapper has already
returned. -/
def fetchMessageBatch (http : Nat → HttpResponse) :
    Except (List Char) (List Msg) × List Ev :=
  let r := executeWithRetry (fun attempt => Except.ok (http attempt))
    RATE_LIMIT_MAX_RETRIES RATE_LIMIT_RETRY_DELAY_MS
  match r.1 with
  | Except.ok resp =>
    (if responseOk resp then Except.ok resp.body
     else Except.error (statusMessage resp.status), r.2)
  | Except.error e => (Except.error e, r.2)

/-- The failing input of claim C6: the HTTP layer answers 429 on the first
two attempts and 200 with a one-message page on the third. -/
def http429 : Nat → HttpResponse :=
  fun attempt => if attempt = 3 then ⟨200, [⟨1, 0⟩]⟩ else ⟨429, []⟩

/-- C6 (failing on the code): with throttling statuses on the first two
attempts and success on the third, the claim expects the successful page
after 1 s and 2 s backoffs; instead the first 429 response is returned by
`executeWithRetry` as a success (fetch does not reject on HTTP error
statuses), no backoff occurs, only a single admission wait is recorded, and
the batch fetch fails with "API returned status 429" — even though that very
message carries the 429 signal the retry wrapper is matching on. -/
theorem fetchMessageBatch_429_no_retry :
    fetchMessageBatch http429 =
      (Except.error (statusMessage 429), [Ev.admission]) ∧
    is429 (statusMessage 429) = true := by
  exact ⟨rfl, by decide⟩

/-- The prune step of `RateLimiter.waitForRateLimit`: keep the request
timestamps strictly newer than `now - 1000`. -/
def pruneTimes (times : List Int) (now : Int) : List Int :=
  times.filter fun t => decide (now - 1000 < t)

/-- `RateLimiter.waitForRateLimit`, with the wall clock passed explicitly:
prunes the window, and when the pruned window holds at least `cap`
timestamps computes `waitMs = oldest + 1000 - now`, sleeps for it if
positive, then records `Date.now()` (i.e. `now` plus the sleep). Returns the
new window and the sleep duration. -/
def waitForRateLimit (cap : Nat) (times : List Int) (now : Int) :
    List Int × Int :=
  let pruned := pruneTimes times now
  if cap ≤ pruned.length then
    match pruned.head? with
    | some oldest =>
      let wait := oldest + 1000 - now
      if 0 < wait then (pruned ++ [now + wait], wait)
      else (pruned ++ [now], 0)
    | none => (pruned ++ [now], 0)
  else (pruned ++ [now], 0)

/-- Invariant of the rate window at the moment `now` of the latest recorded
request: timestamps are in recording order, none lies in the future, and at
most `cap` of them are younger than 1000 ms. -/
def RateInv (cap : Nat) (times : List Int) (now : Int) : Prop :=
  List.Pairwise (fun a b => a ≤ b) times ∧ (∀ t ∈ times, t ≤ now) ∧
  (pruneTimes times now).length ≤ cap

theorem pruneTimes_mem {times : List Int} {now : Int} {t : Int}
    (h : t ∈ pruneTimes times now) : t ∈ times ∧ now - 1000 < t := by
  unfold pruneTimes at h
  rw [List.mem_filter] at h
  exact ⟨h.1, of_decide_eq_true h.2⟩

theorem pruneTimes_append (l₁ l₂ : List Int) (now : Int) :
    pruneTimes (l₁ ++ l₂) now = pruneTimes l₁ now ++ pruneTimes l₂ now := by
  unfold pruneTimes
  rw [List.filter_append]

/-- C7: `waitForRateLimit` prunes every recorded timestamp at least 1000 ms
old; when the pruned window holds at least `cap` timestamps the caller is
suspended for exactly `oldest + 1000 - now` (a positive duration) before the
new request is recorded; and starting from a window satisfying `RateInv`,
the window after the call again has at most `cap` recorded timestamps
younger than 1000 ms at the moment of recording. -/
theorem waitForRateLimit_invariant (cap : Nat) (times : List Int)
    (now now' : Int) (hcap : 1 ≤ cap) (hInv : RateInv cap times now)
    (hle : now ≤ now') :
    (waitForRateLimit cap times now').1 =
      pruneTimes times now' ++ [now' + (waitForRateLimit cap times now').2] ∧
    RateInv cap (waitForRateLimit cap times now').1
      (now' + (waitForRateLimit cap times now').2) ∧
    (cap ≤ (pruneTimes times now').length →
      ∃ oldest, (pruneTimes times now').head? = some oldest ∧
        (waitForRateLimit cap times now').2 = oldest + 1000 - now' ∧
        0 < (waitForRateLimit cap times now').2) := by
  obtain ⟨hsorted, hbound, hcount⟩ := hInv
  have hsorted_p : List.Pairwise (fun a b => a ≤ b) (pruneTimes times now') :=
    hsorted.sublist (List.filter_sublist times)
  have hbound_p : ∀ t ∈ pruneTimes times now', t ≤ now' :=
    fun t ht => le_trans (hbound t (pruneTimes_mem ht).1) hle
  have hyoung_p : ∀ t ∈ pruneTimes times now', now' - 1000 < t :=
    fun t ht => (pruneTimes_mem ht).2
  have hplen : (pruneTimes times now').length ≤ cap := by
    refine le_trans (List.Sublist.length_le ?_) hcount
    exact List.monotone_filter_right times fun a ha => by
      rw [decide_eq_true_eq] at ha ⊢
      omega
  by_cases hfull : cap ≤ (pruneTimes times now').length
  · cases hp : (pruneTimes times now').head? with
    | none =>
      exfalso
      rw [List.head?_eq_none_iff] at hp
      rw [hp] at hfull
      simp at hfull
      omega
    | some oldest =>
      have homem : oldest ∈ pruneTimes times now' := by
        cases hq : pruneTimes times now' with
        | nil => rw [hq] at hp; exact absurd hp (by simp)
        | cons a l =>
          rw [hq] at hp
          simp only [List.head?_cons, Option.some.injEq] at hp
          rw [← hp]
          exact List.mem_cons_self a l
      have hoyoung : now' - 1000 < oldest := hyoung_p oldest homem
      have hwpos : 0 < oldest + 1000 - now' := by omega
      have hres : waitForRateLimit cap times now' =
          (pruneTimes times now' ++ [now' + (oldest + 1000 - now')],
            oldest + 1000 - now') := by
        simp only [waitForRateLimit, if_pos hfull, hp, if_pos hwpos]
      have hnow2 : now' + (oldest + 1000 - now') = oldest + 1000 := by ring
      rw [hres]
      refine ⟨rfl, ⟨?_, ?_, ?_⟩, fun _ => ⟨oldest, by rw [← hp], rfl, hwpos⟩⟩
      · rw [List.pairwise_append]
        refine ⟨hsorted_p, List.pairwise_singleton _ _, ?_⟩
        intro a ha b hb
        rw [List.mem_singleton] at hb
        have := hbound_p a ha
        omega
      · intro t ht
        rw [List.mem_append] at ht
        cases ht with
        | inl h => have := hbound_p t h; omega
        | inr h =>
          rw [List.mem_singleton] at h
          omega
      · rw [hnow2]
        cases hq : pruneTimes times now' with
        | nil => rw [hq] at hp; exact absurd hp (by simp)
        | cons a rest =>
          rw [hq] at hp
          simp only [List.head?_cons, Option.some.injEq] at hp
          rw [hp]
          unfold pruneTimes
          rw [List.filter_append]
          have h1 : List.filter (fun t => decide (oldest + 1000 - 1000 < t))
              (oldest :: rest) = List.filter (fun t => decide (oldest + 1000 - 1000 < t)) rest := by
            rw [List.filter_cons_of_neg]
            simp only [decide_eq_true_eq]
            omega
          rw [h1]
          have h2 : (List.filter (fun t => decide (oldest + 1000 - 1000 < t))
              [oldest + 1000]).length ≤ 1 := by
            simp [List.filter]
          have h3 : (List.filter (fun t => decide (oldest + 1000 - 1000 < t))
              rest).length ≤ rest.length := List.Sublist.length_le (List.filter_sublist rest)
          have h4 : rest.length + 1 = (pruneTimes times now').length := by
            rw [hq]; simp
          rw [List.length_append]
          omega
  · have hres : waitForRateLimit cap times now' =
        (pruneTimes times now' ++ [now'], 0) := by
      unfold waitForRateLimit
      rw [if_neg hfull]
    rw [hres]
    have hnow2 : now' + (0 : Int) = now' := by ring
    rw [hnow2]
    refine ⟨rfl, ⟨?_, ?_, ?_⟩, fun h => absurd h hfull⟩
    · rw [List.pairwise_append]
      refine ⟨hsorted_p, List.pairwise_singleton _ _, ?_⟩
      intro a ha b hb
      rw [List.mem_singleton] at hb
      rw [hb]
      exact hbound_p a ha
    · intro t ht
      rw [List.mem_append] at ht
      cases ht with
      | inl h => exact hbound_p t h
      | inr h =>
        rw [List.mem_singleton] at h
        omega
    · rw [pruneTimes_append]
      have h1 : pruneTimes (pruneTimes times now') now' = pruneTimes times now' := by
        have hall : ∀ a ∈ pruneTimes times now',
            (fun t => decide (now' - 1000 < t)) a = true := by
          intro a ha
          rw [decide_eq_true_eq]
          exact hyoung_p a ha
        unfold pruneTimes at hall ⊢
        exact List.filter_eq_self.mpr hall
      rw [h1]
      have h2 : (pruneTimes [now'] now').length ≤ 1 := by
        simp [pruneTimes, List.filter]
      rw [List.length_append]
      omega

/-- Back-to-back requests through the governor starting from an empty window
at time 0: each call is issued as soon as the previous one returns, so the
clock advances only by the imposed waits. Returns the window, the clock, and
the list of waits. -/
def rateSimulate (cap : Nat) : Nat → List Int × Int × List Int
  | 0 => ([], 0, [])
  | n + 1 =>
    let s := rateSimulate cap n
    let r := waitForRateLimit cap s.1 s.2.1
    (r.1, s.2.1 + r.2, s.2.2 ++ [r.2])

theorem waitForRateLimit_invariant_witness :
    ((waitForRateLimit 10 (List.replicate 10 0) 0).1 =
      pruneTimes (List.replicate 10 0) 0 ++
        [0 + (waitForRateLimit 10 (List.replicate 10 0) 0).2] ∧
    RateInv 10 (waitForRateLimit 10 (List.replicate 10 0) 0).1
      (0 + (waitForRateLimit 10 (List.replicate 10 0) 0).2) ∧
    (10 ≤ (pruneTimes (List.replicate 10 0) 0).length →
      ∃ oldest, (pruneTimes (List.replicate 10 0) 0).head? = some oldest ∧
        (waitForRateLimit 10 (List.replicate 10 0) 0).2 = oldest + 1000 - 0 ∧
        0 < (waitForRateLimit 10 (List.replicate 10 0) 0).2)) ∧
    (((rateSimulate 10 15).2.2.drop 10).head? = some 1000 ∧
      (rateSimulate 10 15).2.2.length = 15) :=
  ⟨waitForRateLimit_invariant 10 (List.replicate 10 0) 0 0 (by decide)
    (by refine ⟨?_, ?_, ?_⟩ <;> decide) (by decide),
   by decide, by decide⟩

/-- The quoting condition of `CSVProcessor.escapeCSVField`: the field
contains a comma, a double quote, or a newline. -/
def needsQuote (s : List Char) : Bool :=
  s.contains ',' || s.contains '"' || s.contains '\n'

/-- `value.replace(/"/g, m)` with doubled quotes: every quote character is
replaced by two. -/
def escQuotes : List Char → List Char
  | [] => []
  | c :: cs => if c = '"' then '"' :: '"' :: escQuotes cs else c :: escQuotes cs

/-- `CSVProcessor.escapeCSVField`: wrap in quotes, doubling the inner ones,
exactly when the field contains a comma, quote or newline; otherwise return
it unchanged. -/
def escapeCSVField (s : List Char) : List Char :=
  if needsQuote s then '"' :: (escQuotes s ++ ['"']) else s

/-- `CSVRow` from src/types: the five columns of the output artifact. -/
structure CSVRow where
  server_name : List Char
  server_id : List Char
  channel_name : List Char
  channel_id : List Char
  data : List Char
deriving DecidableEq

/-- `fields.join(",")`. -/
def joinFields : List (List Char) → List Char
  | [] => []
  | [f] => f
  | f :: fs => f ++ ',' :: joinFields fs

/-- `CSVProcessor.rowToCSV`: escape the five columns and join them with
commas. -/
def rowToCSV (row : CSVRow) : List Char :=
  joinFields [escapeCSVField row.server_name, escapeCSVField row.server_id,
    escapeCSVField row.channel_name, escapeCSVField row.channel_id,
    escapeCSVField row.data]

/-- RFC-4180 quoted-field scanner: after an opening quote, read until the
closing quote, undoubling interior quote pairs; returns the field content
and the remainder after the closing quote, or `none` if the quote is never
closed. -/
def splitQuoted : List Char → Option (List Char × List Char)
  | [] => none
  | c :: cs =>
    if c = '"' then
      match cs with
      | [] => some ([], [])
      | c2 :: cs' =>
        if c2 = '"' then (splitQuoted cs').map fun p => ('"' :: p.1, p.2)
        else some ([], c2 :: cs')
    else (splitQuoted cs).map fun p => (c :: p.1, p.2)

/-- RFC-4180 field parser: a field either starts with a quote and is read by
`splitQuoted`, or extends to the next comma. Returns the field and the
remainder (which starts with the separating comma, if any). -/
def parseField (cs : List Char) : Option (List Char × List Char) :=
  match cs with
  | c :: rest =>
    if c = '"' then splitQuoted rest
    else some (cs.takeWhile (fun a => !(a == ',')),
      cs.dropWhile (fun a => !(a == ',')))
  | [] => some ([], [])

/-- RFC-4180 record parser: fields separated by commas, fuelled. -/
def parseLine : Nat → List Char → Option (List (List Char))
  | 0, _ => none
  | fuel + 1, cs =>
    match parseField cs with
    | none => none
    | some (f, rem) =>
      match rem with
      | [] => some [f]
      | r :: rest =>
        if r = ',' then (parseLine fuel rest).map fun fs => f :: fs
        else none

/-- RFC-4180 record parser with sufficient fuel. -/
def parseRecord (cs : List Char) : Option (List (List Char)) :=
  parseLine (cs.length + 1) cs

theorem escQuotes_cons (c : Char) (cs : List Char) :
    escQuotes (c :: cs) =
      if c = '"' then '"' :: '"' :: escQuotes cs else c :: escQuotes cs := by
  conv_lhs => unfold escQuotes

theorem splitQuoted_cons (c : Char) (cs : List Char) :
    splitQuoted (c :: cs) =
      if c = '"' then
        match cs with
        | [] => some ([], [])
        | c2 :: cs' =>
          if c2 = '"' then (splitQuoted cs').map fun p => ('"' :: p.1, p.2)
          else some ([], c2 :: cs')
      else (splitQuoted cs).map fun p => (c :: p.1, p.2) := by
  conv_lhs => unfold splitQuoted

theorem splitQuoted_escQuotes (s : List Char) : ∀ rest : List Char,
    (∀ cs', rest ≠ '"' :: cs') →
    splitQuoted (escQuotes s ++ '"' :: rest) = some (s, rest) := by
  induction s with
  | nil =>
    intro rest hrest
    simp only [escQuotes, List.nil_append]
    rw [splitQuoted_cons, if_pos rfl]
    cases rest with
    | nil => rfl
    | cons c2 cs' =>
      have hc2 : ¬(c2 = '"') := fun h => hrest cs' (by rw [h])
      dsimp only
      rw [if_neg hc2]
  | cons c s' ih =>
    intro rest hrest
    by_cases hc : c = '"'
    · subst hc
      rw [escQuotes_cons, if_pos rfl, List.cons_append, List.cons_append,
        splitQuoted_cons, if_pos rfl]
      dsimp only
      rw [if_pos rfl, ih rest hrest]
      rfl
    · rw [escQuotes_cons, if_neg hc, List.cons_append, splitQuoted_cons,
        if_neg hc, ih rest hrest]
      rfl

theorem parseField_cons (c : Char) (rest : List Char) :
    parseField (c :: rest) =
      if c = '"' then splitQuoted rest
      else some ((c :: rest).takeWhile (fun a => !(a == ',')),
        (c :: rest).dropWhile (fun a => !(a == ','))) := by
  conv_lhs => unfold parseField

theorem takeWhile_append_comma (s : List Char) (h : ',' ∉ s) :
    ∀ rest, (s ++ rest).takeWhile (fun a => !(a == ',')) =
      s ++ rest.takeWhile (fun a => !(a == ',')) := by
  induction s with
  | nil => intro rest; rfl
  | cons c s' ih =>
    intro rest
    simp only [List.mem_cons, not_or] at h
    have hc : (fun a => !(a == ',')) c = true := by
      simp only [Bool.not_eq_true']
      exact beq_eq_false_iff_ne.mpr fun hcc => h.1 hcc.symm
    rw [List.cons_append, List.takeWhile_cons, if_pos hc, ih h.2 rest,
      List.cons_append]

theorem dropWhile_append_comma (s : List Char) (h : ',' ∉ s) :
    ∀ rest, (s ++ rest).dropWhile (fun a => !(a == ',')) =
      rest.dropWhile (fun a => !(a == ',')) := by
  induction s with
  | nil => intro rest; rfl
  | cons c s' ih =>
    intro rest
    simp only [List.mem_cons, not_or] at h
    have hc : (fun a => !(a == ',')) c = true := by
      simp only [Bool.not_eq_true']
      exact beq_eq_false_iff_ne.mpr fun hcc => h.1 hcc.symm
    rw [List.cons_append, List.dropWhile_cons, if_pos hc, ih h.2 rest]

theorem parseField_unquoted (s rest : List Char) (hq : '"' ∉ s)
    (hc : ',' ∉ s) (hrest : rest = [] ∨ ∃ r, rest = ',' :: r) :
    parseField (s ++ rest) = some (s, rest) := by
  have hpred : (fun a => !(a == ',')) ',' = false := by simp
  have htake : rest.takeWhile (fun a => !(a == ',')) = [] := by
    cases hrest with
    | inl h => rw [h]; rfl
    | inr h =>
      obtain ⟨r, h⟩ := h
      rw [h, List.takeWhile_cons, if_neg (by simp)]
  have hdrop : rest.dropWhile (fun a => !(a == ',')) = rest := by
    cases hrest with
    | inl h => rw [h]; rfl
    | inr h =>
      obtain ⟨r, h⟩ := h
      rw [h, List.dropWhile_cons, if_neg (by simp)]
  cases s with
  | nil =>
    rw [List.nil_append]
    cases hrest with
    | inl h => rw [h]; rfl
    | inr h =>
      obtain ⟨r, h⟩ := h
      rw [h, parseField_cons, if_neg (by decide), List.takeWhile_cons,
        if_neg (by simp), List.dropWhile_cons, if_neg (by simp)]
  | cons a s' =>
    simp only [List.mem_cons, not_or] at hq hc
    have ha2 : (!(a == ',')) = true := by
      simp only [Bool.not_eq_true']
      exact beq_eq_false_iff_ne.mpr fun hcc => hc.1 hcc.symm
    rw [List.cons_append, parseField_cons, if_neg (fun h => hq.1 h.symm),
      List.takeWhile_cons, if_pos ha2, List.dropWhile_cons, if_pos ha2,
      takeWhile_append_comma s' (fun hm => hc.2 hm) rest,
      dropWhile_append_comma s' (fun hm => hc.2 hm) rest, htake, hdrop,
      List.append_nil]

theorem parseField_escape (s rest : List Char)
    (hrest : rest = [] ∨ ∃ r, rest = ',' :: r) :
    parseField (escapeCSVField s ++ rest) = some (s, rest) := by
  have hrest' : ∀ cs', rest ≠ '"' :: cs' := by
    cases hrest with
    | inl h =>
      intro cs' hcc
      rw [h] at hcc
      exact List.noConfusion hcc
    | inr h =>
      obtain ⟨r, h⟩ := h
      intro cs' hcc
      rw [h] at hcc
      injection hcc with h1 _
      exact absurd h1 (by decide)
  cases hNQ : needsQuote s with
  | true =>
    rw [escapeCSVField, if_pos hNQ]
    have hshape : (('"' :: (escQuotes s ++ ['"'])) ++ rest) =
        '"' :: (escQuotes s ++ ('"' :: rest)) := by simp
    rw [hshape, parseField_cons, if_pos rfl]
    exact splitQuoted_escQuotes s rest hrest'
  | false =>
    rw [escapeCSVField, if_neg (by simp [hNQ])]
    have hmem : ¬(',' ∈ s) ∧ ¬('"' ∈ s) := by
      unfold needsQuote at hNQ
      simp only [Bool.or_eq_false_iff] at hNQ
      exact ⟨by simpa using hNQ.1.1, by simpa using hNQ.1.2⟩
    exact parseField_unquoted s rest hmem.2 hmem.1 hrest

theorem parseLine_succ (fuel : Nat) (cs : List Char) :
    parseLine (fuel + 1) cs =
      match parseField cs with
      | none => none
      | some (f, rem) =>
        match rem with
        | [] => some [f]
        | r :: rest =>
          if r = ',' then (parseLine fuel rest).map fun fs => f :: fs
          else none := by
  conv_lhs => unfold parseLine

theorem parseLine_encode : ∀ fields : List (List Char), ∀ fuel : Nat,
    fields ≠ [] → fields.length ≤ fuel →
    parseLine fuel (joinFields (fields.map escapeCSVField)) = some fields := by
  intro fields
  induction fields with
  | nil => intro fuel h _; exact absurd rfl h
  | cons f fs ih =>
    intro fuel _ hlen
    cases fuel with
    | zero => simp at hlen
    | succ fuel =>
      cases fs with
      | nil =>
        rw [parseLine_succ]
        have h := parseField_escape f [] (Or.inl rfl)
        rw [List.append_nil] at h
        have hj : joinFields [escapeCSVField f] = escapeCSVField f := rfl
        rw [List.map_cons, List.map_nil, hj, h]
      | cons g gs =>
        rw [parseLine_succ]
        have hj : joinFields (escapeCSVField f :: escapeCSVField g ::
            gs.map escapeCSVField) = escapeCSVField f ++
            (',' :: joinFields (escapeCSVField g :: gs.map escapeCSVField)) :=
          rfl
        rw [List.map_cons, List.map_cons, hj]
        have h := parseField_escape f
          (',' :: joinFields (escapeCSVField g :: gs.map escapeCSVField))
          (Or.inr ⟨_, rfl⟩)
        rw [h]
        dsimp only
        rw [if_pos rfl]
        have ihh := ih fuel (by simp)
          (by simp only [List.length_cons] at hlen ⊢; omega)
        rw [List.map_cons] at ihh
        rw [ihh]
        rfl

theorem escQuotes_length (s : List Char) :
    s.length ≤ (escQuotes s).length := by
  induction s with
  | nil => simp [escQuotes]
  | cons c cs ih =>
    rw [escQuotes_cons]
    by_cases hc : c = '"'
    · rw [if_pos hc]
      simp only [List.length_cons]
      omega
    · rw [if_neg hc]
      simp only [List.length_cons]
      omega

theorem joinFields_length : ∀ fs : List (List Char),
    fs.length ≤ (joinFields fs).length + 1 := by
  intro fs
  induction fs with
  | nil => simp [joinFields]
  | cons f fs ih =>
    cases fs with
    | nil => simp [joinFields]
    | cons g gs =>
      have hj : joinFields (f :: g :: gs) = f ++ ',' :: joinFields (g :: gs) :=
        rfl
      rw [hj]
      simp only [List.length_cons, List.length_append] at ih ⊢
      omega

/-- C8: `escapeCSVField` wraps a value in doubled-quote quoting exactly when
it contains a comma, a quote or a newline, and leaves it unchanged
otherwise; the quoting is exactly reversible: parsing a serialized row back
with the RFC-4180 rule recovers all five original fields, including a `data`
payload containing commas, quotes and embedded newlines. -/
theorem csv_escape_reversible :
    (∀ s, needsQuote s = true →
      escapeCSVField s = '"' :: (escQuotes s ++ ['"'])) ∧
    (∀ s, needsQuote s = false → escapeCSVField s = s) ∧
    (∀ s, needsQuote s = true → escapeCSVField s ≠ s) ∧
    (∀ row : CSVRow, parseRecord (rowToCSV row) =
      some [row.server_name, row.server_id, row.channel_name,
        row.channel_id, row.data]) := by
  refine ⟨?_, ?_, ?_, ?_⟩
  · intro s h
    rw [escapeCSVField, if_pos h]
  · intro s h
    rw [escapeCSVField, if_neg (by simp [h])]
  · intro s h heq
    have ha : escapeCSVField s = '"' :: (escQuotes s ++ ['"']) := by
      rw [escapeCSVField, if_pos h]
    rw [ha] at heq
    have hl := congrArg List.length heq
    simp only [List.length_cons, List.length_append] at hl
    have := escQuotes_length s
    omega
  · intro row
    have hrw : rowToCSV row = joinFields
        (([row.server_name, row.server_id, row.channel_name,
          row.channel_id, row.data]).map escapeCSVField) := rfl
    unfold parseRecord
    rw [hrw]
    apply parseLine_encode
    · simp
    · have := joinFields_length
        (([row.server_name, row.server_id, row.channel_name,
          row.channel_id, row.data]).map escapeCSVField)
      simpa using this

theorem csv_escape_reversible_witness :
    needsQuote [','] = true ∧
    escapeCSVField [','] = '"' :: (escQuotes [','] ++ ['"']) ∧
    escapeCSVField [','] ≠ [','] ∧
    parseRecord (rowToCSV ⟨['s'], ['1'], ['c'], ['2'],
      ['a', ',', '"', 'b', '"', '\n', 'c']⟩) =
      some [['s'], ['1'], ['c'], ['2'],
        ['a', ',', '"', 'b', '"', '\n', 'c']] :=
  ⟨by decide,
   csv_escape_reversible.1 [','] (by decide),
   csv_escape_reversible.2.2.1 [','] (by decide),
   csv_escape_reversible.2.2.2 ⟨['s'], ['1'], ['c'], ['2'],
     ['a', ',', '"', 'b', '"', '\n', 'c']⟩⟩

/-- `BATCH_INSERT_SIZE` from src/config/constants. -/
def BATCH_INSERT_SIZE : Nat := 100

/-- `ServerMetadata` from src/types. -/
structure ServerMetadata where
  serverName : List Char
  serverId : List Char
  channelName : List Char
  channelId : List Char
deriving DecidableEq

/-- `CSVProcessor.convertToCsvRows`, with the `JSON.stringify` payload
serialization abstracted as `ser`. -/
def convertToCsvRows (ser : Msg → List Char) (meta : ServerMetadata)
    (messages : List Msg) : List CSVRow :=
  messages.map fun msg =>
    ⟨meta.serverName, meta.serverId, meta.channelName, meta.channelId,
      ser msg⟩

/-- The batch slicing of `CSVProcessor.appendMessages`:
`messages.slice(i, min(i + BATCH_INSERT_SIZE, length))` for
`i = 0, BATCH_INSERT_SIZE, ...`. -/
def chunksOf {α : Type} (n : Nat) : List α → List (List α)
  | [] => []
  | x :: xs => (x :: xs.take (n - 1)) :: chunksOf n (xs.drop (n - 1))
termination_by l => l.length
decreasing_by
  simp only [List.length_drop, List.length_cons]
  omega

/-- The rows written by `CSVProcessor.appendMessages`, in file order: the
messages are cut into batches of `BATCH_INSERT_SIZE`, each batch converted
to CSV rows and rendered with `rowToCSV`, and the batches appended one after
the other. -/
def appendLines (ser : Msg → List Char) (meta : ServerMetadata)
    (messages : List Msg) : List (List Char) :=
  ((chunksOf BATCH_INSERT_SIZE messages).map
    (fun batch => (convertToCsvRows ser meta batch).map rowToCSV)).flatten

theorem chunksOf_nil {α : Type} (n : Nat) : chunksOf n ([] : List α) = [] := by
  unfold chunksOf
  rfl

theorem chunksOf_cons {α : Type} (n : Nat) (x : α) (xs : List α) :
    chunksOf n (x :: xs) =
      (x :: xs.take (n - 1)) :: chunksOf n (xs.drop (n - 1)) := by
  conv_lhs => unfold chunksOf

theorem chunksOf_flatten {α : Type} (n : Nat) :
    ∀ l : List α, (chunksOf n l).flatten = l := by
  have key : ∀ k, ∀ l : List α, l.length ≤ k → (chunksOf n l).flatten = l := by
    intro k
    induction k with
    | zero =>
      intro l hl
      cases l with
      | nil => rw [chunksOf_nil]; rfl
      | cons x xs => simp at hl
    | succ k ih =>
      intro l hl
      cases l with
      | nil => rw [chunksOf_nil]; rfl
      | cons x xs =>
        rw [chunksOf_cons]
        simp only [List.flatten_cons]
        rw [ih (xs.drop (n - 1)) (by
          simp only [List.length_drop]
          simp only [List.length_cons] at hl
          omega)]
        rw [List.cons_append, List.take_append_drop]
  exact fun l => key l.length l (le_refl _)

theorem scrapeGo_join_unlimited
    (feed : Option Nat → Except (List Char) (List Msg)) (sd ed : Option Int) :
    ∀ fuel acc st tr pages,
      acc = ((pages.map fun p => filterByTimestamp p sd ed)).flatten →
      (scrapeGo feed 0 sd ed fuel acc st tr pages).messages =
        (((scrapeGo feed 0 sd ed fuel acc st tr pages).pages.map
          fun p => filterByTimestamp p sd ed)).flatten := by
  intro fuel
  induction fuel with
  | zero =>
    intro acc st tr pages hacc
    rw [scrapeGo_zero]
    exact hacc
  | succ fuel ih =>
    intro acc st tr pages hacc
    cases hm : st.hasMore with
    | false =>
      rw [scrapeGo_stopped feed 0 sd ed fuel acc st tr pages hm]
      exact hacc
    | true =>
      cases hf : feed st.before with
      | error e =>
        rw [scrapeGo_error feed 0 sd ed fuel acc st tr pages e hm hf]
        exact hacc
      | ok batch =>
        cases batch with
        | nil =>
          rw [scrapeGo_empty feed 0 sd ed fuel acc st tr pages hm hf]
          exact hacc
        | cons m ms =>
          have hncap : ¬(0 < 0 ∧ 0 ≤ (acc ++ filterByTimestamp (m :: ms) sd ed).length) := by
            simp
          rw [scrapeGo_cons_next feed 0 sd ed fuel acc st tr pages m ms hm hf hncap]
          apply ih
          rw [hacc, List.map_append, List.flatten_append]
          simp

theorem scrapeGo_join_capped
    (feed : Option Nat → Except (List Char) (List Msg)) (sd ed : Option Int)
    (K : Nat) (hK : 0 < K) :
    ∀ fuel acc st tr pages,
      acc = ((pages.map fun p => filterByTimestamp p sd ed)).flatten →
      acc.length < K →
      (scrapeGo feed K sd ed fuel acc st tr pages).messages =
        ((((scrapeGo feed K sd ed fuel acc st tr pages).pages.map
          fun p => filterByTimestamp p sd ed)).flatten).take K := by
  intro fuel
  induction fuel with
  | zero =>
    intro acc st tr pages hacc hlen
    rw [scrapeGo_zero]
    rw [← hacc, List.take_of_length_le (le_of_lt hlen)]
  | succ fuel ih =>
    intro acc st tr pages hacc hlen
    cases hm : st.hasMore with
    | false =>
      rw [scrapeGo_stopped feed K sd ed fuel acc st tr pages hm]
      rw [← hacc, List.take_of_length_le (le_of_lt hlen)]
    | true =>
      cases hf : feed st.before with
      | error e =>
        rw [scrapeGo_error feed K sd ed fuel acc st tr pages e hm hf]
        rw [← hacc, List.take_of_length_le (le_of_lt hlen)]
      | ok batch =>
        cases batch with
        | nil =>
          rw [scrapeGo_empty feed K sd ed fuel acc st tr pages hm hf]
          rw [← hacc, List.take_of_length_le (le_of_lt hlen)]
        | cons m ms =>
          have hacc' : acc ++ filterByTimestamp (m :: ms) sd ed =
              (((pages ++ [m :: ms]).map
                fun p => filterByTimestamp p sd ed)).flatten := by
            rw [hacc, List.map_append, List.flatten_append]
            simp
          by_cases hcap :
              0 < K ∧ K ≤ (acc ++ filterByTimestamp (m :: ms) sd ed).length
          · rw [scrapeGo_cons_cap feed K sd ed fuel acc st tr pages m ms hm hf hcap]
            rw [← hacc']
          · rw [scrapeGo_cons_next feed K sd ed fuel acc st tr pages m ms hm hf hcap]
            apply ih _ _ _ _ hacc'
            rcases Nat.lt_or_ge (acc ++ filterByTimestamp (m :: ms) sd ed).length K with h | h
            · exact h
            · exact absurd ⟨hK, h⟩ hcap

/-- C10: order is preserved end to end — the kept message list of a run is
the concatenation, in fetch order, of the per-page filtered batches (with
cap truncation keeping exactly the first `maxMessages` of it); filtering is
a sublist operation, so it keeps relative order and introduces no
duplicates; and `appendMessages` writes one rendered row per message in
exactly the order of its input list. -/
theorem scrape_order_preserved
    (feed : Option Nat → Except (List Char) (List Msg)) (sd ed : Option Int)
    (fuel : Nat) :
    ((scrapeGo feed 0 sd ed fuel [] initState [] []).messages =
      (((scrapeGo feed 0 sd ed fuel [] initState [] []).pages.map
        fun p => filterByTimestamp p sd ed)).flatten) ∧
    (∀ K, 0 < K →
      (scrapeGo feed K sd ed fuel [] initState [] []).messages =
        ((((scrapeGo feed K sd ed fuel [] initState [] []).pages.map
          fun p => filterByTimestamp p sd ed)).flatten).take K) ∧
    (∀ msgs, List.Sublist (filterByTimestamp msgs sd ed) msgs) ∧
    (∀ ser meta msgs, appendLines ser meta msgs =
      msgs.map fun m => rowToCSV ⟨meta.serverName, meta.serverId,
        meta.channelName, meta.channelId, ser m⟩) := by
  refine ⟨?_, ?_, ?_, ?_⟩
  · exact scrapeGo_join_unlimited feed sd ed fuel [] initState [] [] rfl
  · intro K hK
    exact scrapeGo_join_capped feed sd ed K hK fuel [] initState [] [] rfl
      (by simpa using hK)
  · intro msgs
    cases sd with
    | none =>
      cases ed with
      | none => exact List.Sublist.refl msgs
      | some e => exact List.filter_sublist msgs
    | some s =>
      cases ed with
      | none => exact List.filter_sublist msgs
      | some e => exact List.filter_sublist msgs
  · intro ser meta msgs
    unfold appendLines
    have h1 : ∀ b, (convertToCsvRows ser meta b).map rowToCSV =
        b.map (fun m => rowToCSV ⟨meta.serverName, meta.serverId,
          meta.channelName, meta.channelId, ser m⟩) := by
      intro b
      unfold convertToCsvRows
      rw [List.map_map]
      rfl
    simp only [h1]
    rw [← List.map_flatten, chunksOf_flatten]

theorem scrape_order_preserved_witness :
    ((scrapeGo feedW 0 none none 5 [] initState [] []).messages =
      (((scrapeGo feedW 0 none none 5 [] initState [] []).pages.map
        fun p => filterByTimestamp p none none)).flatten) ∧
    ((scrapeGo feedW 1 none none 5 [] initState [] []).messages =
      ((((scrapeGo feedW 1 none none 5 [] initState [] []).pages.map
        fun p => filterByTimestamp p none none)).flatten).take 1) ∧
    List.Sublist (filterByTimestamp [⟨5, 0⟩, ⟨3, 0⟩] none none)
      [⟨5, 0⟩, ⟨3, 0⟩] ∧
    appendLines (fun _ => ['x']) ⟨['s'], ['1'], ['c'], ['2']⟩
        [⟨5, 0⟩, ⟨3, 0⟩] =
      [⟨5, 0⟩, ⟨3, 0⟩].map fun m => rowToCSV ⟨['s'], ['1'], ['c'], ['2'],
        (fun _ : Msg => ['x']) m⟩ :=
  ⟨(scrape_order_preserved feedW none none 5).1,
   (scrape_order_preserved feedW none none 5).2.1 1 (by decide),
   (scrape_order_preserved feedW none none 5).2.2.1 [⟨5, 0⟩, ⟨3, 0⟩],
   (scrape_order_preserved feedW none none 5).2.2.2 (fun _ => ['x'])
     ⟨['s'], ['1'], ['c'], ['2']⟩ [⟨5, 0⟩, ⟨3, 0⟩]⟩

theorem scrape_filter_and_raw_advance_witness :
    (∀ msgs m, m ∈ filterByTimestamp msgs (some 0) (some 20) ↔
      m ∈ msgs ∧ (∀ s, some (0 : Int) = some s → s ≤ m.timestamp) ∧
        (∀ e, some (20 : Int) = some e → m.timestamp ≤ e)) ∧
    (scrapeGo feedW 0 (some 0) (some 20) 5 [] initState [] []).state.totalFetched =
      (((scrapeGo feedW 0 (some 0) (some 20) 5 [] initState [] []).pages).map
        List.length).sum ∧
    (∀ c, (scrapeGo feedW 0 (some 0) (some 20) 5 [] initState [] []).state.before =
        some c →
      (((scrapeGo feedW 0 (some 0) (some 20) 5 [] initState [] []).pages.flatten).map
        Msg.id).getLast? = some c) :=
  scrape_filter_and_raw_advance feedW 0 (some 0) (some 20) 5
